import Mathlib

/-!
Verification development for the `MemoryPostgresChat` node
(`packages/@n8n/nodes-langchain/nodes/memory/MemoryPostgresChat/MemoryPostgresChat.node.ts`).

The file embeds the `PostgresToolAwareMemory` class and the variant-selection
logic of `supplyData` as pure Lean functions.  The external
`PostgresChatMessageHistory` store (an out-of-scope collaborator library) is
modelled from the spec as a session-keyed, append-only message log with an
explicit per-call failure schedule, so that the error-propagation behaviour of
the adapter can be stated and proved.
-/

namespace MemoryPostgresChat

/-- A structured tool call carried by an AI message (opaque payload that must
round-trip unchanged). -/
structure ToolCall where
  id : String
  name : String
  args : String
deriving DecidableEq, Repr

/-- A role-tagged chat message: human input, AI output (possibly carrying
structured tool-call metadata), or a tool-result message. -/
inductive BaseMessage where
  | human (content : String)
  | ai (content : String) (toolCalls : List ToolCall)
  | tool (content : String) (toolCallId : String)
deriving DecidableEq, Repr

/-- A JavaScript runtime value as it can appear in the `inputs` / `outputs`
records handed to `saveContext`: a string, a number, a boolean, `null`, an
array, a plain object, or a message-class instance. -/
inductive Value where
  | str (s : String)
  | num (n : Int)
  | bool (b : Bool)
  | null
  | arr (elems : List Value)
  | obj (fields : List (String × Value))
  | msg (m : BaseMessage)

/-- JavaScript truthiness of a `Value`: empty strings, `0`, `false` and `null`
are falsy; every object (arrays, plain objects, message instances — including
the empty array) is truthy. -/
def truthy : Value → Bool
  | .str s => !s.isEmpty
  | .num n => n != 0
  | .bool b => b
  | .null => false
  | .arr _ => true
  | .obj _ => true
  | .msg _ => true

/-- A `Record<string, any>`: an association list from keys to values. -/
def RecMap : Type := List (String × Value)

/-- Property lookup `record[key]`: `none` models `undefined` (absent key). -/
def lookupVal (m : RecMap) (k : String) : Option Value :=
  (List.find? (fun p => p.1 == k) m).map (·.2)

/-- JSON string escaping for the characters that matter here. -/
def jsonEscape (s : String) : String :=
  String.join (s.toList.map (fun c =>
    if c = '"' then "\\\""
    else if c = '\\' then "\\\\"
    else if c = '\n' then "\\n"
    else if c = '\t' then "\\t"
    else if c = '\r' then "\\r"
    else String.singleton c))

/-- Modelled from the spec: how `JSON.stringify` renders a message-class
instance reached by the lossy text fallback — its role tag and fields as a
JSON object.  (The exact rendering of message instances is external-library
behaviour; only its type — some text form — matters to the adapter.) -/
def stringifyMsgFields : BaseMessage → String
  | .human c => "\x7b\"type\":\"human\",\"content\":\"" ++ jsonEscape c ++ "\"\x7d"
  | .ai c tcs =>
      "\x7b\"type\":\"ai\",\"content\":\"" ++ jsonEscape c ++ "\",\"tool_calls\":[" ++
        String.intercalate ","
          (tcs.map (fun tc =>
            "\x7b\"id\":\"" ++ jsonEscape tc.id ++ "\",\"name\":\"" ++ jsonEscape tc.name ++
              "\",\"args\":\"" ++ jsonEscape tc.args ++ "\"\x7d")) ++ "]\x7d"
  | .tool c tcid =>
      "\x7b\"type\":\"tool\",\"content\":\"" ++ jsonEscape c ++ "\",\"tool_call_id\":\"" ++
        jsonEscape tcid ++ "\"\x7d"

mutual

/-- Modelled from the spec: `JSON.stringify`, the platform serializer used by
the lossy text fallback ("serialize to a text form (JSON string)"). -/
def stringifyValue : Value → String
  | .str s => "\"" ++ jsonEscape s ++ "\""
  | .num n => toString n
  | .bool b => cond b "true" "false"
  | .null => "null"
  | .arr es => "[" ++ stringifyElems es ++ "]"
  | .obj fs => "\x7b" ++ stringifyFields fs ++ "\x7d"
  | .msg m => stringifyMsgFields m

/-- Comma-separated serialization of array elements. -/
def stringifyElems : List Value → String
  | [] => ""
  | [v] => stringifyValue v
  | v :: v' :: vs => stringifyValue v ++ "," ++ stringifyElems (v' :: vs)

/-- Comma-separated serialization of object fields. -/
def stringifyFields : List (String × Value) → String
  | [] => ""
  | [(k, v)] => "\"" ++ jsonEscape k ++ "\":" ++ stringifyValue v
  | (k, v) :: f :: fs =>
      "\"" ++ jsonEscape k ++ "\":" ++ stringifyValue v ++ "," ++ stringifyFields (f :: fs)

end

/-- The external message constructor `new HumanMessage(v)`: a string argument
becomes the message's text content; any other argument is coerced to its
serialized text form.  Modelled from the spec: "append it as a human-authored
message". -/
def HumanMessage : Value → BaseMessage
  | .str s => .human s
  | v => .human (stringifyValue v)

/-- The external message constructor `new AIMessage(s)` on a string argument: an AI message with that text
content and no tool calls. -/
def AIMessage (s : String) : BaseMessage := .ai s []

/-- The runtime check `v instanceof BaseMessage`: whether the value is a message-class instance. -/
def isBaseMessageVal : Value → Bool
  | .msg _ => true
  | _ => false

/-- The messages inside an array value that passed the
`every((msg) => msg instanceof BaseMessage)` check (under that check this is
exactly the array itself). -/
def extractMessages (es : List Value) : List BaseMessage :=
  es.filterMap (fun v => match v with | .msg m => some m | _ => none)

/-- A handle to the external `PostgresChatMessageHistory` store, constructed
from a pool, a session id and a table name; the pool is opaque and the log it
addresses is keyed by `(tableName, sessionId)` (spec §3). -/
structure PostgresChatMessageHistory where
  tableName : String
  sessionId : String
deriving DecidableEq, Repr

/-- Modelled from the spec: the persisted state of the external chat-history
store — one ordered, append-only message log per `(tableName, sessionId)`
key — together with a failure schedule: `failures` maps the index of a store
call (0-based, counted by `callsMade`) to the error that call raises, letting
upstream I/O failures be injected at any point. -/
structure StoreState where
  logs : PostgresChatMessageHistory → List BaseMessage
  callsMade : Nat
  failures : List (Nat × String)

/-- The scheduled failure (if any) for call number `n`. -/
def findFailure (fs : List (Nat × String)) (n : Nat) : Option String :=
  (List.find? (fun p => p.1 == n) fs).map (·.2)

/-- Modelled from the spec: issue one call to the store — the call counter
advances and the failure schedule decides whether this call fails. -/
def StoreState.nextCall (st : StoreState) : StoreState × Option String :=
  ({ st with callsMade := st.callsMade + 1 }, findFailure st.failures st.callsMade)

/-- Replace the log of one session, leaving every other session untouched. -/
def StoreState.setLog (st : StoreState) (h : PostgresChatMessageHistory)
    (ms : List BaseMessage) : StoreState :=
  { st with logs := fun h' => if h' = h then ms else st.logs h' }

/-- Modelled from the spec: `addMessage(m)` — one store call appending one
message to the session's log. -/
def StoreState.addMessage (st : StoreState) (h : PostgresChatMessageHistory)
    (m : BaseMessage) : StoreState × Option String :=
  let r := st.nextCall
  match r.2 with
  | some err => (r.1, some err)
  | none => ((r.1).setLog h (r.1.logs h ++ [m]), none)

/-- Modelled from the spec: `addMessages(ms)` — one batched store call
appending a sequence of messages to the session's log, in order. -/
def StoreState.addMessages (st : StoreState) (h : PostgresChatMessageHistory)
    (ms : List BaseMessage) : StoreState × Option String :=
  let r := st.nextCall
  match r.2 with
  | some err => (r.1, some err)
  | none => ((r.1).setLog h (r.1.logs h ++ ms), none)

/-- Modelled from the spec: `getMessages()` — one store call reading the full
ordered message sequence of the session. -/
def StoreState.getMessages (st : StoreState) (h : PostgresChatMessageHistory) :
    StoreState × Except String (List BaseMessage) :=
  let r := st.nextCall
  match r.2 with
  | some err => (r.1, .error err)
  | none => (r.1, .ok (r.1.logs h))

/-- Modelled from the spec: `clear()` — one store call removing all messages
of the session (other sessions' logs are untouched). -/
def StoreState.clearSession (st : StoreState) (h : PostgresChatMessageHistory) :
    StoreState × Option String :=
  let r := st.nextCall
  match r.2 with
  | some err => (r.1, some err)
  | none => ((r.1).setLog h [], none)

/-- The `PostgresToolAwareMemory` instance state after construction: the
configuration fields and the borrowed store handle (`history`). -/
structure PostgresToolAwareMemory where
  memoryKey : String
  inputKey : Option String
  outputKey : Option String
  returnMessages : Bool
  history : PostgresChatMessageHistory
deriving DecidableEq, Repr

/-- The optional constructor argument of `PostgresToolAwareMemory`
(`input?: { memoryKey?; inputKey?; outputKey?; chatHistory; returnMessages? }`);
`chatHistory` is `Option` because the runtime check guards against a missing
or null handle. -/
structure MemoryInput where
  memoryKey : Option String
  inputKey : Option String
  outputKey : Option String
  chatHistory : Option PostgresChatMessageHistory
  returnMessages : Option Bool
deriving DecidableEq, Repr

/-- The constructor of `PostgresToolAwareMemory` (source lines 39–59): applies
the defaults `memoryKey = "chat_history"`, `inputKey = "input"`,
`outputKey = "output"`, `returnMessages = true`, and throws when no
`chatHistory` handle is supplied.  It takes and returns the store state to
make visible that it performs no store call. -/
def PostgresToolAwareMemory.construct (input : Option MemoryInput) (st : StoreState) :
    StoreState × Except String PostgresToolAwareMemory :=
  match input.bind (·.chatHistory) with
  | none =>
      (st, .error "PostgresChatMessageHistory instance is required for PostgresToolAwareMemory")
  | some h =>
      (st, .ok
        { memoryKey := (input.bind (·.memoryKey)).getD "chat_history"
          inputKey := some ((input.bind (·.inputKey)).getD "input")
          outputKey := some ((input.bind (·.outputKey)).getD "output")
          returnMessages := (input.bind (·.returnMessages)).getD true
          history := h })

/-- The `memoryKeys` getter (source lines 61–64). -/
def PostgresToolAwareMemory.memoryKeys (mem : PostgresToolAwareMemory) : List String :=
  [mem.memoryKey]

/-- Operation `loadMemoryVariables(_values)` (source lines 66–70): read the full message
sequence from the store and return the one-entry mapping
`{ [memoryKey]: messages }`; a store failure propagates unchanged. -/
def PostgresToolAwareMemory.loadMemoryVariables (mem : PostgresToolAwareMemory)
    (_values : RecMap) (st : StoreState) :
    StoreState × Except String (List (String × List BaseMessage)) :=
  let r := st.getMessages mem.history
  match r.2 with
  | .error e => (r.1, .error e)
  | .ok messages => (r.1, .ok [(mem.memoryKey, messages)])

/-- Step 1 of `saveContext` (source lines 76–79): when `this.inputKey` is
truthy and `inputs[this.inputKey]` is truthy, append the input wrapped in a
`HumanMessage`. -/
def PostgresToolAwareMemory.saveInputStep (mem : PostgresToolAwareMemory)
    (inputs : RecMap) (st : StoreState) : StoreState × Option String :=
  match mem.inputKey with
  | none => (st, none)
  | some k =>
      if k.isEmpty then (st, none)
      else
        match lookupVal inputs k with
        | none => (st, none)
        | some v =>
            if truthy v then st.addMessage mem.history (HumanMessage v)
            else (st, none)

/-- Step 2 of `saveContext` (source lines 81–99): when `this.outputKey` is
truthy and `outputs[this.outputKey]` is truthy, classify the output value —
string, `AIMessage` instance, array of `BaseMessage` instances, or anything
else — and append accordingly. -/
def PostgresToolAwareMemory.saveOutputStep (mem : PostgresToolAwareMemory)
    (outputs : RecMap) (st : StoreState) : StoreState × Option String :=
  match mem.outputKey with
  | none => (st, none)
  | some k =>
      if k.isEmpty then (st, none)
      else
        match lookupVal outputs k with
        | none => (st, none)
        | some outputValue =>
            if truthy outputValue then
              match outputValue with
              | .str s => st.addMessage mem.history (AIMessage s)
              | .msg (.ai c tcs) => st.addMessage mem.history (.ai c tcs)
              | .arr es =>
                  if es.all isBaseMessageVal then
                    st.addMessages mem.history (extractMessages es)
                  else
                    st.addMessage mem.history (AIMessage (stringifyValue (.arr es)))
              | v => st.addMessage mem.history (AIMessage (stringifyValue v))
            else (st, none)

/-- Operation `saveContext(inputs, outputs)` (source lines 72–100): the input append,
then — only if it did not throw — the output append; a failure of either store
call aborts the method and surfaces unchanged. -/
def PostgresToolAwareMemory.saveContext (mem : PostgresToolAwareMemory)
    (inputs outputs : RecMap) (st : StoreState) : StoreState × Option String :=
  let r1 := mem.saveInputStep inputs st
  match r1.2 with
  | some e => (r1.1, some e)
  | none => mem.saveOutputStep outputs r1.1

/-- Operation `clear()` (source lines 102–104): delegate to the store's clear. -/
def PostgresToolAwareMemory.clear (mem : PostgresToolAwareMemory) (st : StoreState) :
    StoreState × Option String :=
  st.clearSession mem.history

/-- The memory implementation `supplyData` can return: plain buffer memory,
windowed buffer memory with window `k`, or the tool-aware adapter. -/
inductive MemoryVariant where
  | bufferMemory
  | bufferWindowMemory (k : Int)
  | toolAware
deriving DecidableEq, Repr

/-- Spec-side characterization (§4.1 step 1): the messages the input half of a
turn is specified to append — the input wrapped as a human-authored message
when present and truthy, nothing otherwise. -/
def specInputAppend (mem : PostgresToolAwareMemory) (inputs : RecMap) : List BaseMessage :=
  match mem.inputKey with
  | none => []
  | some k =>
      if k.isEmpty then []
      else
        match lookupVal inputs k with
        | none => []
        | some v => if truthy v then [HumanMessage v] else []

/-- Spec-side characterization (§4.1 step 2): the messages the output half of
a turn is specified to append — one AI message for a string, the structured AI
message verbatim, a recognized message sequence whole and in order, or one AI
message holding the serialized text form as the lossy fallback. -/
def specOutputAppend (mem : PostgresToolAwareMemory) (outputs : RecMap) : List BaseMessage :=
  match mem.outputKey with
  | none => []
  | some k =>
      if k.isEmpty then []
      else
        match lookupVal outputs k with
        | none => []
        | some v =>
            if truthy v then
              match v with
              | .str s => [AIMessage s]
              | .msg (.ai c tcs) => [BaseMessage.ai c tcs]
              | .arr es =>
                  if es.all isBaseMessageVal then extractMessages es
                  else [AIMessage (stringifyValue (.arr es))]
              | v => [AIMessage (stringifyValue v)]
            else []

/-- Spec-side characterization: everything one `saveContext` call is specified
to append — the input half followed by the output half. -/
def specTurnAppend (mem : PostgresToolAwareMemory) (inputs outputs : RecMap) :
    List BaseMessage :=
  specInputAppend mem inputs ++ specOutputAppend mem outputs

/-- A caller issuing a sequence of `saveContext` calls, in order (used to
state append-order fidelity over many turns). -/
def runTurns (mem : PostgresToolAwareMemory) (turns : List (RecMap × RecMap))
    (st : StoreState) : StoreState :=
  match turns with
  | [] => st
  | t :: ts => runTurns mem ts (mem.saveContext t.1 t.2 st).1

/-- A concrete store handle for witnesses. -/
def sampleHistory : PostgresChatMessageHistory :=
  { tableName := "n8n_chat_histories", sessionId := "session-1" }

/-- A second, distinct store handle for frame-condition witnesses. -/
def otherHistory : PostgresChatMessageHistory :=
  { tableName := "n8n_chat_histories", sessionId := "session-2" }

/-- A store with empty logs, no calls made and no scheduled failures. -/
def emptyStore : StoreState :=
  { logs := fun _ => [], callsMade := 0, failures := [] }

/-- The adapter exactly as `supplyData` constructs it (source lines 194–200). -/
def defaultMemory (h : PostgresChatMessageHistory) : PostgresToolAwareMemory :=
  { memoryKey := "chat_history"
    inputKey := some "input"
    outputKey := some "output"
    returnMessages := true
    history := h }

/-- A concrete AI message with tool-call metadata, for round-trip witnesses. -/
def sampleToolCall : ToolCall :=
  { id := "call_1", name := "search", args := "\x7b\"q\":\"weather\"\x7d" }

/-- The variant-selection logic of `supplyData` (source lines 193–221):
`typeVersion >= 1.4 && supportToolCalls` picks the tool-aware adapter;
otherwise `typeVersion < 1.1` picks `BufferMemory` with no `k` option and any
other version picks `BufferWindowMemory` with `k = contextWindowLength`. -/
def selectVariant (typeVersion : ℚ) (supportToolCalls : Bool)
    (contextWindowLength : Int) : MemoryVariant :=
  if 1.4 ≤ typeVersion ∧ supportToolCalls = true then .toolAware
  else if typeVersion < 1.1 then .bufferMemory
  else .bufferWindowMemory contextWindowLength

/-! ## Helper lemmas -/

theorem findFailure_nil (n : Nat) : findFailure [] n = none := rfl

theorem addMessage_ok (st : StoreState) (h : PostgresChatMessageHistory) (m : BaseMessage)
    (hf : findFailure st.failures st.callsMade = none) :
    st.addMessage h m =
      ({ logs := fun h' => if h' = h then st.logs h ++ [m] else st.logs h'
         callsMade := st.callsMade + 1
         failures := st.failures }, none) := by
  simp [StoreState.addMessage, StoreState.nextCall, StoreState.setLog, hf]

theorem addMessages_ok (st : StoreState) (h : PostgresChatMessageHistory)
    (ms : List BaseMessage) (hf : findFailure st.failures st.callsMade = none) :
    st.addMessages h ms =
      ({ logs := fun h' => if h' = h then st.logs h ++ ms else st.logs h'
         callsMade := st.callsMade + 1
         failures := st.failures }, none) := by
  simp [StoreState.addMessages, StoreState.nextCall, StoreState.setLog, hf]

theorem addMessage_fail (st : StoreState) (h : PostgresChatMessageHistory) (m : BaseMessage)
    (err : String) (hf : findFailure st.failures st.callsMade = some err) :
    st.addMessage h m = ({ st with callsMade := st.callsMade + 1 }, some err) := by
  simp [StoreState.addMessage, StoreState.nextCall, hf]

theorem addMessages_fail (st : StoreState) (h : PostgresChatMessageHistory)
    (ms : List BaseMessage) (err : String)
    (hf : findFailure st.failures st.callsMade = some err) :
    st.addMessages h ms = ({ st with callsMade := st.callsMade + 1 }, some err) := by
  simp [StoreState.addMessages, StoreState.nextCall, hf]

theorem saveInputStep_noFail (mem : PostgresToolAwareMemory) (inputs : RecMap)
    (st : StoreState) (hf : findFailure st.failures st.callsMade = none) :
    (mem.saveInputStep inputs st).2 = none ∧
    (mem.saveInputStep inputs st).1.logs mem.history =
      st.logs mem.history ++ specInputAppend mem inputs ∧
    (∀ h, h ≠ mem.history → (mem.saveInputStep inputs st).1.logs h = st.logs h) ∧
    (mem.saveInputStep inputs st).1.failures = st.failures := by
  unfold PostgresToolAwareMemory.saveInputStep specInputAppend
  cases hmk : mem.inputKey with
  | none => simp
  | some k =>
      cases hke : k.isEmpty with
      | true => simp [hke]
      | false =>
          cases hlv : lookupVal inputs k with
          | none => simp [hke, hlv]
          | some v =>
              cases htv : truthy v with
              | false => simp [hke, hlv, htv]
              | true =>
                  simp [hke, hlv, htv, StoreState.addMessage, StoreState.nextCall,
                    StoreState.setLog, hf] <;> exact fun h hne heq => absurd heq hne

theorem saveOutputStep_noFail (mem : PostgresToolAwareMemory) (outputs : RecMap)
    (st : StoreState) (hf : findFailure st.failures st.callsMade = none) :
    (mem.saveOutputStep outputs st).2 = none ∧
    (mem.saveOutputStep outputs st).1.logs mem.history =
      st.logs mem.history ++ specOutputAppend mem outputs ∧
    (∀ h, h ≠ mem.history → (mem.saveOutputStep outputs st).1.logs h = st.logs h) ∧
    (mem.saveOutputStep outputs st).1.failures = st.failures := by
  unfold PostgresToolAwareMemory.saveOutputStep specOutputAppend
  cases hmk : mem.outputKey with
  | none => simp
  | some k =>
      cases hke : k.isEmpty with
      | true => simp [hke]
      | false =>
          cases hlv : lookupVal outputs k with
          | none => simp [hke, hlv]
          | some v =>
              cases htv : truthy v with
              | false => simp [hke, hlv, htv]
              | true =>
                  cases v with
                  | str s =>
                      simp [hke, hlv, htv, StoreState.addMessage, StoreState.nextCall,
                        StoreState.setLog, hf] <;> exact fun h hne heq => absurd heq hne
                  | num n =>
                      simp [hke, hlv, htv, StoreState.addMessage, StoreState.nextCall,
                        StoreState.setLog, hf] <;> exact fun h hne heq => absurd heq hne
                  | bool b =>
                      simp [hke, hlv, htv, StoreState.addMessage, StoreState.nextCall,
                        StoreState.setLog, hf] <;> exact fun h hne heq => absurd heq hne
                  | null =>
                      simp [hke, hlv, htv, StoreState.addMessage, StoreState.nextCall,
                        StoreState.setLog, hf] <;> exact fun h hne heq => absurd heq hne
                  | arr es =>
                      cases hall : es.all isBaseMessageVal with
                      | true =>
                          simp [hke, hlv, htv, hall, StoreState.addMessages,
                            StoreState.nextCall, StoreState.setLog, hf] <;> exact fun h hne heq => absurd heq hne
                      | false =>
                          simp [hke, hlv, htv, hall, StoreState.addMessage,
                            StoreState.nextCall, StoreState.setLog, hf] <;> exact fun h hne heq => absurd heq hne
                  | obj fs =>
                      simp [hke, hlv, htv, StoreState.addMessage, StoreState.nextCall,
                        StoreState.setLog, hf] <;> exact fun h hne heq => absurd heq hne
                  | msg m =>
                      cases m with
                      | human c =>
                          simp [hke, hlv, htv, StoreState.addMessage, StoreState.nextCall,
                            StoreState.setLog, hf] <;> exact fun h hne heq => absurd heq hne
                      | ai c tcs =>
                          simp [hke, hlv, htv, StoreState.addMessage, StoreState.nextCall,
                            StoreState.setLog, hf] <;> exact fun h hne heq => absurd heq hne
                      | tool c tcid =>
                          simp [hke, hlv, htv, StoreState.addMessage, StoreState.nextCall,
                            StoreState.setLog, hf] <;> exact fun h hne heq => absurd heq hne

theorem saveOutputStep_fail (mem : PostgresToolAwareMemory) (outputs : RecMap)
    (st : StoreState) (ko : String) (vo : Value) (err : String)
    (hko : mem.outputKey = some ko) (hkoe : ko.isEmpty = false)
    (hvo : lookupVal outputs ko = some vo) (hto : truthy vo = true)
    (hff : findFailure st.failures st.callsMade = some err) :
    mem.saveOutputStep outputs st = ({ st with callsMade := st.callsMade + 1 }, some err) := by
  cases vo with
  | str s =>
      simp [PostgresToolAwareMemory.saveOutputStep, hko, hkoe, hvo, hto,
        addMessage_fail, hff]
  | num n =>
      simp [PostgresToolAwareMemory.saveOutputStep, hko, hkoe, hvo, hto,
        addMessage_fail, hff]
  | bool b =>
      simp [PostgresToolAwareMemory.saveOutputStep, hko, hkoe, hvo, hto,
        addMessage_fail, hff]
  | null =>
      simp [truthy] at hto
  | arr es =>
      simp [PostgresToolAwareMemory.saveOutputStep, hko, hkoe, hvo, hto,
        addMessage_fail, addMessages_fail, hff]
  | obj fs =>
      simp [PostgresToolAwareMemory.saveOutputStep, hko, hkoe, hvo, hto,
        addMessage_fail, hff]
  | msg m =>
      cases m with
      | human c =>
          simp [PostgresToolAwareMemory.saveOutputStep, hko, hkoe, hvo, hto,
            addMessage_fail, hff]
      | ai c tcs =>
          simp [PostgresToolAwareMemory.saveOutputStep, hko, hkoe, hvo, hto,
            addMessage_fail, hff]
      | tool c tcid =>
          simp [PostgresToolAwareMemory.saveOutputStep, hko, hkoe, hvo, hto,
            addMessage_fail, hff]

theorem saveContext_noFail (mem : PostgresToolAwareMemory) (inputs outputs : RecMap)
    (st : StoreState) (hf : st.failures = []) :
    (mem.saveContext inputs outputs st).2 = none ∧
    (mem.saveContext inputs outputs st).1.logs mem.history =
      st.logs mem.history ++ specTurnAppend mem inputs outputs ∧
    (∀ h, h ≠ mem.history → (mem.saveContext inputs outputs st).1.logs h = st.logs h) ∧
    (mem.saveContext inputs outputs st).1.failures = [] := by
  have hf0 : findFailure st.failures st.callsMade = none := by rw [hf]; rfl
  obtain ⟨h1e, h1log, h1fr, h1fail⟩ := saveInputStep_noFail mem inputs st hf0
  have hf1 : findFailure (mem.saveInputStep inputs st).1.failures
      (mem.saveInputStep inputs st).1.callsMade = none := by
    rw [h1fail, hf]; rfl
  obtain ⟨h2e, h2log, h2fr, h2fail⟩ :=
    saveOutputStep_noFail mem outputs (mem.saveInputStep inputs st).1 hf1
  simp only [PostgresToolAwareMemory.saveContext, h1e]
  refine ⟨h2e, ?_, ?_, by rw [h2fail, h1fail, hf]⟩
  · rw [h2log, h1log, specTurnAppend, List.append_assoc]
  · intro h hne
    rw [h2fr h hne, h1fr h hne]

theorem runTurns_noFail (mem : PostgresToolAwareMemory) (turns : List (RecMap × RecMap)) :
    ∀ st : StoreState, st.failures = [] →
      (runTurns mem turns st).logs mem.history =
        st.logs mem.history ++
          (turns.map (fun t => specTurnAppend mem t.1 t.2)).flatten ∧
      (∀ h, h ≠ mem.history → (runTurns mem turns st).logs h = st.logs h) ∧
      (runTurns mem turns st).failures = [] := by
  induction turns with
  | nil => intro st hf; exact ⟨by simp [runTurns], fun h _ => rfl, hf⟩
  | cons t ts ih =>
      intro st hf
      obtain ⟨hce, hclog, hcfr, hcfail⟩ := saveContext_noFail mem t.1 t.2 st hf
      obtain ⟨ilog, ifr, ifail⟩ := ih (mem.saveContext t.1 t.2 st).1 hcfail
      refine ⟨?_, ?_, ifail⟩
      · rw [runTurns, ilog, hclog]
        simp [List.append_assoc]
      · intro h hne
        rw [runTurns, ifr h hne, hcfr h hne]

theorem loadMemoryVariables_noFail (mem : PostgresToolAwareMemory) (vals : RecMap)
    (st : StoreState) (hf : findFailure st.failures st.callsMade = none) :
    mem.loadMemoryVariables vals st =
      ({ st with callsMade := st.callsMade + 1 },
        .ok [(mem.memoryKey, st.logs mem.history)]) := by
  simp [PostgresToolAwareMemory.loadMemoryVariables, StoreState.getMessages,
    StoreState.nextCall, hf]

/-! ## Claim theorems -/

/-- C1: whenever `outputs[outputKey]` is present and truthy, the output step of
`saveContext` classifies the value into exactly one of four cases and appends
accordingly: a string becomes a single AI message; an already-structured AI
message is appended verbatim; an array whose every element is a recognized
message object is appended whole, in order; any other value is appended as a
single AI message holding its JSON serialization. -/
theorem C1_output_classification (mem : PostgresToolAwareMemory) (outputs : RecMap)
    (st : StoreState) (k : String) (v : Value)
    (hk : mem.outputKey = some k) (hke : k.isEmpty = false)
    (hv : lookupVal outputs k = some v) (ht : truthy v = true)
    (hf : findFailure st.failures st.callsMade = none) :
    (mem.saveOutputStep outputs st).2 = none ∧
    (∀ s, v = .str s →
      (mem.saveOutputStep outputs st).1.logs mem.history =
        st.logs mem.history ++ [AIMessage s]) ∧
    (∀ c tcs, v = .msg (.ai c tcs) →
      (mem.saveOutputStep outputs st).1.logs mem.history =
        st.logs mem.history ++ [BaseMessage.ai c tcs]) ∧
    (∀ es, v = .arr es → es.all isBaseMessageVal = true →
      (mem.saveOutputStep outputs st).1.logs mem.history =
        st.logs mem.history ++ extractMessages es) ∧
    ((∀ s, v ≠ .str s) → (∀ c tcs, v ≠ .msg (.ai c tcs)) →
      (∀ es, v = .arr es → es.all isBaseMessageVal = false) →
      (mem.saveOutputStep outputs st).1.logs mem.history =
        st.logs mem.history ++ [AIMessage (stringifyValue v)]) := by
  obtain ⟨he, hlog, -, -⟩ := saveOutputStep_noFail mem outputs st hf
  refine ⟨he, ?_, ?_, ?_, ?_⟩
  · intro s hs
    subst hs
    rw [hlog]
    simp [specOutputAppend, hk, hke, hv, ht]
  · intro c tcs hs
    subst hs
    rw [hlog]
    simp [specOutputAppend, hk, hke, hv, ht]
  · intro es hs hall
    subst hs
    rw [hlog]
    simp [specOutputAppend, hk, hke, hv, ht, hall]
  · intro h1 h2 h3
    rw [hlog]
    cases v with
    | str s => exact absurd rfl (h1 s)
    | num n => simp [specOutputAppend, hk, hke, hv, ht]
    | bool b => simp [specOutputAppend, hk, hke, hv, ht]
    | null => simp [truthy] at ht
    | arr es => simp [specOutputAppend, hk, hke, hv, ht, h3 es rfl]
    | obj fs => simp [specOutputAppend, hk, hke, hv, ht]
    | msg m =>
        cases m with
        | human c => simp [specOutputAppend, hk, hke, hv, ht]
        | ai c tcs => exact absurd rfl (h2 c tcs)
        | tool c tcid => simp [specOutputAppend, hk, hke, hv, ht]

/-- C1 witness: a plain-string output on an empty session is appended as a
single AI message. -/
theorem C1_output_classification_witness :
    ((defaultMemory sampleHistory).saveOutputStep
        [("output", Value.str "Hi")] emptyStore).1.logs sampleHistory =
      [AIMessage "Hi"] := by
  have h := C1_output_classification (defaultMemory sampleHistory)
    [("output", Value.str "Hi")] emptyStore "output" (Value.str "Hi")
    rfl rfl rfl rfl rfl
  simpa using h.2.1 "Hi" rfl

/-- C2: an AI output message carrying structured tool-call metadata, passed as
`outputs[outputKey]` to `saveContext` and then reloaded via
`loadMemoryVariables`, comes back field-for-field identical — the structured
message is appended verbatim, with no stringification. -/
theorem C2_toolcall_roundtrip (mem : PostgresToolAwareMemory) (inputs outputs : RecMap)
    (st : StoreState) (k c : String) (tcs : List ToolCall)
    (hk : mem.outputKey = some k) (hke : k.isEmpty = false)
    (hv : lookupVal outputs k = some (Value.msg (BaseMessage.ai c tcs)))
    (hf : st.failures = []) :
    (mem.saveContext inputs outputs st).2 = none ∧
    (mem.loadMemoryVariables [] (mem.saveContext inputs outputs st).1).2 =
      .ok [(mem.memoryKey,
        st.logs mem.history ++ specInputAppend mem inputs ++ [BaseMessage.ai c tcs])] := by
  obtain ⟨he, hlog, -, hfail⟩ := saveContext_noFail mem inputs outputs st hf
  have hload := loadMemoryVariables_noFail mem [] (mem.saveContext inputs outputs st).1
    (by rw [hfail]; rfl)
  refine ⟨he, ?_⟩
  rw [hload]
  rw [hlog]
  simp [specTurnAppend, specOutputAppend, hk, hke, hv, truthy]

/-- C2 witness: an AI message with a concrete tool call round-trips unchanged
through save and load on an empty session. -/
theorem C2_toolcall_roundtrip_witness :
    ((defaultMemory sampleHistory).loadMemoryVariables []
        ((defaultMemory sampleHistory).saveContext []
          [("output", Value.msg (BaseMessage.ai "" [sampleToolCall]))] emptyStore).1).2 =
      .ok [("chat_history", [BaseMessage.ai "" [sampleToolCall]])] := by
  have h := C2_toolcall_roundtrip (defaultMemory sampleHistory) []
    [("output", Value.msg (BaseMessage.ai "" [sampleToolCall]))] emptyStore
    "output" "" [sampleToolCall] rfl rfl rfl rfl
  simpa [specInputAppend, defaultMemory, lookupVal, emptyStore] using h.2

/-- C3: the node entry point deterministically selects exactly one memory
implementation from `(typeVersion, supportToolCalls, contextWindowLength)`:
version below 1.1 gives unwindowed buffer memory; version at least 1.1 with
(version below 1.4 or tool-call support disabled) gives windowed buffer memory
bounded to the last `k` turns; version at least 1.4 with tool-call support
enabled gives the tool-aware adapter. -/
theorem C3_variant_selection (v : ℚ) (flag : Bool) (k : Int) :
    (v < 1.1 → selectVariant v flag k = .bufferMemory) ∧
    (1.1 ≤ v → (v < 1.4 ∨ flag = false) →
      selectVariant v flag k = .bufferWindowMemory k) ∧
    (1.4 ≤ v → flag = true → selectVariant v flag k = .toolAware) := by
  refine ⟨?_, ?_, ?_⟩
  · intro h
    have hn : ¬(1.4 ≤ v ∧ flag = true) := by
      rintro ⟨h14, -⟩
      have : (1.1 : ℚ) < 1.4 := by norm_num
      linarith
    rw [selectVariant, if_neg hn, if_pos h]
  · intro h11 hor
    have hn : ¬(1.4 ≤ v ∧ flag = true) := by
      rintro ⟨h14, hT⟩
      rcases hor with h14' | hff
      · linarith
      · rw [hff] at hT
        exact Bool.false_ne_true hT
    rw [selectVariant, if_neg hn, if_neg (not_lt.mpr h11)]
  · intro h14 hT
    rw [selectVariant, if_pos ⟨h14, hT⟩]

/-- C3 witness: the three branches at concrete configurations — version 1
unwindowed, version 1.2 windowed with `k = 5`, version 1.4 with tool calls
enabled tool-aware. -/
theorem C3_variant_selection_witness :
    selectVariant 1 false 5 = .bufferMemory ∧
    selectVariant 1.2 false 5 = .bufferWindowMemory 5 ∧
    selectVariant 1.4 true 5 = .toolAware :=
  ⟨(C3_variant_selection 1 false 5).1 (by norm_num),
   (C3_variant_selection 1.2 false 5).2.1 (by norm_num) (Or.inl (by norm_num)),
   (C3_variant_selection 1.4 true 5).2.2 (by norm_num) rfl⟩

/-- C4: `saveContext(inputs, outputs)` performs up to two appends in a fixed
order — the truthy input first, as a human-authored message, then the
classified output — and on the concrete scenario
`saveContext({input: "Hello"}, {output: "Hi there"})` on an empty session,
`loadMemoryVariables({})` yields
`{chat_history: [HumanMessage("Hello"), AIMessage("Hi there")]}`. -/
theorem C4_saveContext_two_appends :
    (∀ (mem : PostgresToolAwareMemory) (inputs outputs : RecMap) (st : StoreState),
      st.failures = [] →
      (mem.saveContext inputs outputs st).2 = none ∧
      (mem.saveContext inputs outputs st).1.logs mem.history =
        st.logs mem.history ++ specInputAppend mem inputs ++ specOutputAppend mem outputs) ∧
    ((defaultMemory sampleHistory).loadMemoryVariables []
        ((defaultMemory sampleHistory).saveContext
          [("input", Value.str "Hello")] [("output", Value.str "Hi there")] emptyStore).1).2 =
      .ok [("chat_history", [BaseMessage.human "Hello", BaseMessage.ai "Hi there" []])] := by
  constructor
  · intro mem inputs outputs st hf
    obtain ⟨he, hlog, -, -⟩ := saveContext_noFail mem inputs outputs st hf
    rw [specTurnAppend] at hlog
    exact ⟨he, by rw [hlog, List.append_assoc]⟩
  · rfl

/-- C4 witness: the general part applied at the concrete "Hello" / "Hi there"
turn — no error, and the session log gains the human message then the AI
message, in that order. -/
theorem C4_saveContext_two_appends_witness :
    ((defaultMemory sampleHistory).saveContext
        [("input", Value.str "Hello")] [("output", Value.str "Hi there")] emptyStore).2 =
      none ∧
    ((defaultMemory sampleHistory).saveContext
        [("input", Value.str "Hello")] [("output", Value.str "Hi there")] emptyStore).1.logs
        sampleHistory =
      [BaseMessage.human "Hello", BaseMessage.ai "Hi there" []] := by
  have h := C4_saveContext_two_appends.1 (defaultMemory sampleHistory)
    [("input", Value.str "Hello")] [("output", Value.str "Hi there")] emptyStore rfl
  refine ⟨h.1, ?_⟩
  have h2 := h.2
  simpa [specInputAppend, specOutputAppend, defaultMemory, lookupVal, emptyStore,
    HumanMessage, AIMessage, truthy] using h2

/-- C5: `loadMemoryVariables` reads the full ordered message sequence and
returns a mapping with exactly one entry, `memoryKey ↦ messages`, with no
windowing or filtering; and after any sequence of `saveContext` calls it
returns the prior log plus everything those calls appended, in append order. -/
theorem C5_load_returns_full_log :
    (∀ (mem : PostgresToolAwareMemory) (vals : RecMap) (st : StoreState),
      st.failures = [] →
      mem.loadMemoryVariables vals st =
        ({ st with callsMade := st.callsMade + 1 },
          .ok [(mem.memoryKey, st.logs mem.history)])) ∧
    (∀ (mem : PostgresToolAwareMemory) (turns : List (RecMap × RecMap)) (vals : RecMap)
        (st : StoreState),
      st.failures = [] →
      (mem.loadMemoryVariables vals (runTurns mem turns st)).2 =
        .ok [(mem.memoryKey,
          st.logs mem.history ++
            (turns.map (fun t => specTurnAppend mem t.1 t.2)).flatten)]) := by
  constructor
  · intro mem vals st hf
    exact loadMemoryVariables_noFail mem vals st (by rw [hf]; rfl)
  · intro mem turns vals st hf
    obtain ⟨hlog, -, hfail⟩ := runTurns_noFail mem turns st hf
    rw [loadMemoryVariables_noFail mem vals (runTurns mem turns st) (by rw [hfail]; rfl),
      hlog]

/-- C5 witness: loading from a session holding one message returns exactly the
one-entry mapping with that message; and after two concrete turns the load
returns all four messages in append order. -/
theorem C5_load_returns_full_log_witness :
    (defaultMemory sampleHistory).loadMemoryVariables []
        { logs := fun h => if h = sampleHistory then [BaseMessage.human "x"] else []
          callsMade := 0
          failures := [] } =
      ({ logs := fun h => if h = sampleHistory then [BaseMessage.human "x"] else []
         callsMade := 1
         failures := [] },
        .ok [("chat_history", [BaseMessage.human "x"])]) ∧
    ((defaultMemory sampleHistory).loadMemoryVariables []
        (runTurns (defaultMemory sampleHistory)
          [([("input", Value.str "a")], [("output", Value.str "b")]),
           ([("input", Value.str "c")], [("output", Value.str "d")])]
          emptyStore)).2 =
      .ok [("chat_history",
        [BaseMessage.human "a", BaseMessage.ai "b" [],
         BaseMessage.human "c", BaseMessage.ai "d" []])] := by
  constructor
  · have h := C5_load_returns_full_log.1 (defaultMemory sampleHistory) []
      { logs := fun h => if h = sampleHistory then [BaseMessage.human "x"] else []
        callsMade := 0
        failures := [] } rfl
    simpa [defaultMemory] using h
  · have h := C5_load_returns_full_log.2 (defaultMemory sampleHistory)
      [([("input", Value.str "a")], [("output", Value.str "b")]),
       ([("input", Value.str "c")], [("output", Value.str "d")])] [] emptyStore rfl
    simpa [specTurnAppend, specInputAppend, specOutputAppend, defaultMemory, lookupVal,
      emptyStore, HumanMessage, AIMessage, truthy] using h

/-- C6: `saveContext` is not atomic across its two appends and performs no
retry or error translation — when the input-message append succeeds and the
output-message append fails, the log is left with only the input message
appended, the failure surfaces to the caller unchanged, and other sessions
are untouched. -/
theorem C6_nonatomic_passthrough (mem : PostgresToolAwareMemory)
    (inputs outputs : RecMap) (st : StoreState) (ki ko : String) (vi vo : Value)
    (err : String)
    (hki : mem.inputKey = some ki) (hkie : ki.isEmpty = false)
    (hvi : lookupVal inputs ki = some vi) (hti : truthy vi = true)
    (hko : mem.outputKey = some ko) (hkoe : ko.isEmpty = false)
    (hvo : lookupVal outputs ko = some vo) (hto : truthy vo = true)
    (hf0 : findFailure st.failures st.callsMade = none)
    (hf1 : findFailure st.failures (st.callsMade + 1) = some err) :
    (mem.saveContext inputs outputs st).2 = some err ∧
    (mem.saveContext inputs outputs st).1.logs mem.history =
      st.logs mem.history ++ [HumanMessage vi] ∧
    (∀ h, h ≠ mem.history → (mem.saveContext inputs outputs st).1.logs h = st.logs h) := by
  have h1 : mem.saveInputStep inputs st =
      ({ logs := fun h' => if h' = mem.history
                  then st.logs mem.history ++ [HumanMessage vi] else st.logs h'
         callsMade := st.callsMade + 1
         failures := st.failures }, none) := by
    simp [PostgresToolAwareMemory.saveInputStep, hki, hkie, hvi, hti,
      addMessage_ok st mem.history (HumanMessage vi) hf0]
  have h2 := saveOutputStep_fail mem outputs
    { logs := fun h' => if h' = mem.history
                then st.logs mem.history ++ [HumanMessage vi] else st.logs h'
      callsMade := st.callsMade + 1
      failures := st.failures }
    ko vo err hko hkoe hvo hto hf1
  refine ⟨?_, ?_, ?_⟩ <;>
    simp [PostgresToolAwareMemory.saveContext, h1, h2] <;>
    exact fun h hne heq => absurd heq hne

/-- C6 witness: with the store scheduled to fail on its second call, saving a
"Hello" / "Hi" turn on an empty session leaves exactly the human message in
the log and surfaces the store's error text unchanged. -/
theorem C6_nonatomic_passthrough_witness :
    ((defaultMemory sampleHistory).saveContext
        [("input", Value.str "Hello")] [("output", Value.str "Hi")]
        { logs := fun _ => [], callsMade := 0,
          failures := [(1, "connection lost")] }).2 = some "connection lost" ∧
    ((defaultMemory sampleHistory).saveContext
        [("input", Value.str "Hello")] [("output", Value.str "Hi")]
        { logs := fun _ => [], callsMade := 0,
          failures := [(1, "connection lost")] }).1.logs sampleHistory =
      [BaseMessage.human "Hello"] := by
  have h := C6_nonatomic_passthrough (defaultMemory sampleHistory)
    [("input", Value.str "Hello")] [("output", Value.str "Hi")]
    { logs := fun _ => [], callsMade := 0, failures := [(1, "connection lost")] }
    "input" "output" (Value.str "Hello") (Value.str "Hi") "connection lost"
    rfl rfl rfl rfl rfl rfl rfl rfl rfl rfl
  exact ⟨h.1, by simpa [HumanMessage] using h.2.1⟩

/-- C7: constructing the tool-aware adapter without a message-log handle fails
immediately and synchronously with the configuration error, touching the
store not at all; construction with a non-null handle succeeds and borrows
that handle. -/
theorem C7_constructor_requires_handle :
    (∀ (input : Option MemoryInput) (st : StoreState),
      input.bind (·.chatHistory) = none →
      PostgresToolAwareMemory.construct input st =
        (st, .error
          "PostgresChatMessageHistory instance is required for PostgresToolAwareMemory")) ∧
    (∀ (input : Option MemoryInput) (st : StoreState) (h : PostgresChatMessageHistory),
      input.bind (·.chatHistory) = some h →
      ∃ mem : PostgresToolAwareMemory,
        PostgresToolAwareMemory.construct input st = (st, .ok mem) ∧ mem.history = h) := by
  constructor
  · intro input st hnone
    rw [PostgresToolAwareMemory.construct, hnone]
  · intro input st h hsome
    refine ⟨{ memoryKey := (input.bind (·.memoryKey)).getD "chat_history"
              inputKey := some ((input.bind (·.inputKey)).getD "input")
              outputKey := some ((input.bind (·.outputKey)).getD "output")
              returnMessages := (input.bind (·.returnMessages)).getD true
              history := h }, ?_, rfl⟩
    rw [PostgresToolAwareMemory.construct, hsome]

/-- C7 witness: construction with no argument at all fails with the
configuration error and leaves the store untouched; construction with a
handle succeeds. -/
theorem C7_constructor_requires_handle_witness :
    PostgresToolAwareMemory.construct none emptyStore =
      (emptyStore, .error
        "PostgresChatMessageHistory instance is required for PostgresToolAwareMemory") ∧
    ∃ mem : PostgresToolAwareMemory,
      PostgresToolAwareMemory.construct
          (some { memoryKey := none, inputKey := none, outputKey := none,
                  chatHistory := some sampleHistory, returnMessages := none })
          emptyStore =
        (emptyStore, .ok mem) ∧ mem.history = sampleHistory :=
  ⟨C7_constructor_requires_handle.1 none emptyStore rfl,
   C7_constructor_requires_handle.2
     (some { memoryKey := none, inputKey := none, outputKey := none,
             chatHistory := some sampleHistory, returnMessages := none })
     emptyStore sampleHistory rfl⟩

/-- C8: `clear()` delegates to the store's clear operation and removes all
messages of that session only — a subsequent `loadMemoryVariables` returns an
empty sequence for the session, while every other session's log is
unchanged. -/
theorem C8_clear_scoped (mem : PostgresToolAwareMemory) (vals : RecMap) (st : StoreState)
    (hf0 : findFailure st.failures st.callsMade = none)
    (hf1 : findFailure st.failures (st.callsMade + 1) = none) :
    (mem.clear st).2 = none ∧
    (mem.clear st).1.logs mem.history = [] ∧
    (∀ h, h ≠ mem.history → (mem.clear st).1.logs h = st.logs h) ∧
    (mem.loadMemoryVariables vals (mem.clear st).1).2 = .ok [(mem.memoryKey, [])] := by
  have hclear : mem.clear st =
      ({ logs := fun h' => if h' = mem.history then [] else st.logs h'
         callsMade := st.callsMade + 1
         failures := st.failures }, none) := by
    simp [PostgresToolAwareMemory.clear, StoreState.clearSession, StoreState.nextCall,
      StoreState.setLog, hf0]
  refine ⟨by rw [hclear], by simp [hclear], fun h hne => by simp [hclear, hne], ?_⟩
  rw [hclear,
    loadMemoryVariables_noFail mem vals
      { logs := fun h' => if h' = mem.history then [] else st.logs h'
        callsMade := st.callsMade + 1
        failures := st.failures } hf1]
  simp

/-- C8 witness: clearing a session that holds a message empties exactly that
session, leaves a second session's log intact, and a subsequent load returns
the empty sequence. -/
theorem C8_clear_scoped_witness :
    ((defaultMemory sampleHistory).clear
        { logs := fun h => if h = sampleHistory
            then [BaseMessage.human "a"] else [BaseMessage.human "b"]
          callsMade := 0
          failures := [] }).1.logs sampleHistory = [] ∧
    ((defaultMemory sampleHistory).clear
        { logs := fun h => if h = sampleHistory
            then [BaseMessage.human "a"] else [BaseMessage.human "b"]
          callsMade := 0
          failures := [] }).1.logs otherHistory = [BaseMessage.human "b"] ∧
    ((defaultMemory sampleHistory).loadMemoryVariables []
        ((defaultMemory sampleHistory).clear
          { logs := fun h => if h = sampleHistory
              then [BaseMessage.human "a"] else [BaseMessage.human "b"]
            callsMade := 0
            failures := [] }).1).2 = .ok [("chat_history", [])] := by
  have h := C8_clear_scoped (defaultMemory sampleHistory) []
    { logs := fun h => if h = sampleHistory
        then [BaseMessage.human "a"] else [BaseMessage.human "b"]
      callsMade := 0
      failures := [] } rfl rfl
  have hne : otherHistory ≠ sampleHistory := by decide
  refine ⟨h.2.1, ?_, h.2.2.2⟩
  have hother := h.2.2.1 otherHistory hne
  simpa [hne] using hother

/-- C9: an append half is skipped entirely — the store is not touched for that
half of the turn — whenever the corresponding key is unset or the empty
string, the key is absent from the record, or the value present under the key
is falsy; presence alone does not trigger an append. -/
theorem C9_falsy_skips_append :
    (∀ (mem : PostgresToolAwareMemory) (inputs : RecMap) (st : StoreState),
      (mem.inputKey = none ∨ mem.inputKey = some "" ∨
        (∃ k, mem.inputKey = some k ∧ lookupVal inputs k = none) ∨
        (∃ k v, mem.inputKey = some k ∧ lookupVal inputs k = some v ∧ truthy v = false)) →
      mem.saveInputStep inputs st = (st, none)) ∧
    (∀ (mem : PostgresToolAwareMemory) (outputs : RecMap) (st : StoreState),
      (mem.outputKey = none ∨ mem.outputKey = some "" ∨
        (∃ k, mem.outputKey = some k ∧ lookupVal outputs k = none) ∨
        (∃ k v, mem.outputKey = some k ∧ lookupVal outputs k = some v ∧ truthy v = false)) →
      mem.saveOutputStep outputs st = (st, none)) := by
  constructor
  · intro mem inputs st hcase
    rcases hcase with hnone | hempty | ⟨k, hk, hlv⟩ | ⟨k, v, hk, hlv, htv⟩
    · simp [PostgresToolAwareMemory.saveInputStep, hnone]
    · simp [PostgresToolAwareMemory.saveInputStep, hempty, String.isEmpty]
    · by_cases hke : k.isEmpty
      · simp [PostgresToolAwareMemory.saveInputStep, hk, hke]
      · simp [PostgresToolAwareMemory.saveInputStep, hk, hke, hlv]
    · by_cases hke : k.isEmpty
      · simp [PostgresToolAwareMemory.saveInputStep, hk, hke]
      · simp [PostgresToolAwareMemory.saveInputStep, hk, hke, hlv, htv]
  · intro mem outputs st hcase
    rcases hcase with hnone | hempty | ⟨k, hk, hlv⟩ | ⟨k, v, hk, hlv, htv⟩
    · simp [PostgresToolAwareMemory.saveOutputStep, hnone]
    · simp [PostgresToolAwareMemory.saveOutputStep, hempty, String.isEmpty]
    · by_cases hke : k.isEmpty
      · simp [PostgresToolAwareMemory.saveOutputStep, hk, hke]
      · simp [PostgresToolAwareMemory.saveOutputStep, hk, hke, hlv]
    · by_cases hke : k.isEmpty
      · simp [PostgresToolAwareMemory.saveOutputStep, hk, hke]
      · simp [PostgresToolAwareMemory.saveOutputStep, hk, hke, hlv, htv]

/-- C9 witness: an empty-string input value and a `false` output value are
present under their keys, yet both halves skip the append and return the
store untouched — not even a store call is made. -/
theorem C9_falsy_skips_append_witness :
    (defaultMemory sampleHistory).saveInputStep
        [("input", Value.str "")] emptyStore = (emptyStore, none) ∧
    (defaultMemory sampleHistory).saveOutputStep
        [("output", Value.bool false)] emptyStore = (emptyStore, none) :=
  ⟨C9_falsy_skips_append.1 (defaultMemory sampleHistory) [("input", Value.str "")]
      emptyStore (Or.inr (Or.inr (Or.inr ⟨"input", Value.str "", rfl, rfl, rfl⟩))),
   C9_falsy_skips_append.2 (defaultMemory sampleHistory) [("output", Value.bool false)]
      emptyStore (Or.inr (Or.inr (Or.inr ⟨"output", Value.bool false, rfl, rfl, rfl⟩)))⟩

/-- C10: an empty array as `outputs[outputKey]` is truthy and takes the
sequence branch (the every-element check holds vacuously): one batched store
call appends zero messages, so every session's log is unchanged and, in
particular, the lossy fallback — an AI message containing the serialized form
"[]" — is not appended. -/
theorem C10_empty_sequence_batch (mem : PostgresToolAwareMemory) (outputs : RecMap)
    (st : StoreState) (k : String)
    (hk : mem.outputKey = some k) (hke : k.isEmpty = false)
    (hv : lookupVal outputs k = some (Value.arr []))
    (hf : findFailure st.failures st.callsMade = none) :
    (mem.saveOutputStep outputs st).2 = none ∧
    (∀ h, (mem.saveOutputStep outputs st).1.logs h = st.logs h) ∧
    (mem.saveOutputStep outputs st).1.callsMade = st.callsMade + 1 ∧
    stringifyValue (Value.arr []) = "[]" ∧
    (mem.saveOutputStep outputs st).1.logs mem.history ≠
      st.logs mem.history ++ [AIMessage (stringifyValue (Value.arr []))] := by
  have hstep : mem.saveOutputStep outputs st =
      ({ logs := fun h' => if h' = mem.history then st.logs mem.history ++ [] else st.logs h'
         callsMade := st.callsMade + 1
         failures := st.failures }, none) := by
    simp [PostgresToolAwareMemory.saveOutputStep, hk, hke, hv, truthy, extractMessages,
      addMessages_ok st mem.history [] hf]
  have hlogs : ∀ h, (mem.saveOutputStep outputs st).1.logs h = st.logs h := by
    intro h
    rw [hstep]
    by_cases hne : h = mem.history
    · simp [hne]
    · simp [hne]
  refine ⟨by rw [hstep], hlogs, by rw [hstep], rfl, ?_⟩
  rw [hlogs mem.history]
  intro heq
  have hlen := congrArg List.length heq
  simp at hlen

/-- C10 witness: on an empty session an empty-array output issues one store
call, appends nothing, and leaves the log empty rather than holding an AI
message "[]". -/
theorem C10_empty_sequence_batch_witness :
    ((defaultMemory sampleHistory).saveOutputStep
        [("output", Value.arr [])] emptyStore).1.logs sampleHistory = [] ∧
    ((defaultMemory sampleHistory).saveOutputStep
        [("output", Value.arr [])] emptyStore).1.callsMade = 1 ∧
    ((defaultMemory sampleHistory).saveOutputStep
        [("output", Value.arr [])] emptyStore).1.logs sampleHistory ≠
      [AIMessage "[]"] := by
  have h := C10_empty_sequence_batch (defaultMemory sampleHistory)
    [("output", Value.arr [])] emptyStore "output" rfl rfl rfl rfl
  refine ⟨by simpa using h.2.1 sampleHistory, h.2.2.1, ?_⟩
  have := h.2.2.2.2
  simpa [h.2.2.2.1, emptyStore] using this

end MemoryPostgresChat
